import Mathlib

/-!
Shallow embedding of the scoring core of the `augustopher/yahtzee` repository
(`src/yahtzee/scoring/validators.py`, `src/yahtzee/scoring/rules.py`,
`src/yahtzee/scoring/scoresheet.py`).

Modelling conventions:
* A die is represented by its showing face, a `Nat` (faces are `1..sides`);
  a `DiceList` entry may be absent (`None` in Python), so dice are
  `List (Option Nat)`.  Python's `[... for die in dice if die]` keeps exactly
  the non-`None` entries (a `Die` object is always truthy), i.e. `filterMap id`.
* Python exceptions are modelled with `Except Err`: `RuleAlreadyScoredError`,
  `RuleInputValueError`, `ValueError` (raised by `max()`/`min()`/`combinations`
  on bad input), `DuplicateRuleNamesError` (carrying the list of duplicated
  names that the message interpolates), `KeyError` (missing `rules_map` index)
  and `StopIteration` (exhausted `next(...)`).
* Mutation is modelled by explicit state passing: methods that mutate an
  object return the updated object (or an error, in which case the caller's
  state is unchanged).
* The Python attribute `section` is called `sect` here (`section` is a Lean
  keyword); scores and counters are `Nat` (face values are positive, every
  score computed by the code is a sum/product of them).
* `rule in bonus.req_rules` (Python list membership) is modelled as membership
  of the rule's name, which is faithful inside a scoresheet whose rule names
  are unique; `req_rules` therefore stores names.
-/

namespace YahtzeeSpec

/-- The errors the scoring core can raise. -/
inductive Err where
  | ruleAlreadyScored (name : String)
  | ruleInputValue
  | valueError
  | duplicateRuleNames (names : List String)
  | keyError
  | stopIteration
deriving DecidableEq, Repr

/-- Scoresheet sections (`Section` enum in `rules.py`). -/
inductive Sect where
  | upper
  | lower
deriving DecidableEq, Repr

/-- The present showing faces of a dice list:
`[die.showing_face for die in dice if die]`. -/
def presentFaces (dice : List (Option Nat)) : List Nat :=
  dice.filterMap id

/-- The distinct values of a list in first-occurrence order, as produced by
iterating `collections.Counter(values).items()`. -/
def firstDedup {α : Type} [DecidableEq α] : List α → List α
  | [] => []
  | x :: xs => x :: (firstDedup xs).filter (fun y => decide (y ≠ x))

/-- The multiset of counts `Counter(values).values()`: one count per distinct
value, in first-occurrence order. -/
def counterValues (values : List Nat) : List Nat :=
  (firstDedup values).map (fun v => values.count v)

/-- `validators.validate_nofkind(dice, n)`:
`faces = [die.showing_face for die in dice if die]; n in Counter(faces).values()`. -/
def validate_nofkind (dice : List (Option Nat)) (n : Nat) : Bool :=
  let faces := presentFaces dice
  (counterValues faces).contains n

/-- `validators.validate_full_house(dice, large_n, small_n)`: raises
`RuleInputValueError` when `small_n >= large_n`, otherwise checks for an exact
`small_n`-of-a-kind and an exact `large_n`-of-a-kind. -/
def validate_full_house (dice : List (Option Nat)) (large_n small_n : Nat) :
    Except Err Bool :=
  if small_n ≥ large_n then
    .error Err.ruleInputValue
  else
    let small_nkind := validate_nofkind dice small_n
    let large_nkind := validate_nofkind dice large_n
    .ok (small_nkind && large_nkind)

/-- `max(x :: xs)`: Python's `max` folds over the elements. -/
def foldMax (x : Nat) (xs : List Nat) : Nat :=
  xs.foldl Nat.max x

/-- `min(x :: xs)`: Python's `min` folds over the elements. -/
def foldMin (x : Nat) (xs : List Nat) : Nat :=
  xs.foldl Nat.min x

/-- The boolean computed by `validators.validate_straight` on the non-empty
list `x :: xs`: `max - min + 1 == len` and `len(set(values)) == len(values)`. -/
def straightCheck (x : Nat) (xs : List Nat) : Bool :=
  decide (foldMax x xs - foldMin x xs + 1 = (x :: xs).length) &&
    decide ((x :: xs).dedup.length = (x :: xs).length)

/-- `validators.validate_straight(values)`: `max(values)` (and `min`) raise
`ValueError` on an empty sequence; otherwise the range and uniqueness checks. -/
def validate_straight (values : List Nat) : Except Err Bool :=
  match values with
  | [] => .error Err.valueError
  | x :: xs => .ok (straightCheck x xs)

/-- `validators.validate_large_straight(dice)`: straight test over all present
faces. -/
def validate_large_straight (dice : List (Option Nat)) : Except Err Bool :=
  validate_straight (presentFaces dice)

/-- `itertools.combinations(faces, len(faces) - 1)` for a non-empty `faces`:
all ways to drop exactly one element, in order. -/
def sublistsDropOne : List Nat → List (List Nat)
  | [] => []
  | x :: xs => xs :: (sublistsDropOne xs).map (fun s => x :: s)

/-- The eager list comprehension `[validate_straight(list(s)) for s in subsets]`:
evaluated left to right, the first exception aborting the whole call. -/
def mapExcept (f : List Nat → Except Err Bool) :
    List (List Nat) → Except Err (List Bool)
  | [] => .ok []
  | a :: as =>
    match f a with
    | .error e => .error e
    | .ok b =>
      match mapExcept f as with
      | .error e => .error e
      | .ok bs => .ok (b :: bs)

/-- `validators.validate_small_straight(dice)`: `combinations(faces, len-1)`
raises `ValueError` when `faces` is empty (negative subset size); otherwise
`any([...])` over the drop-one subsets, where a subset that is itself empty
makes `validate_straight` raise. -/
def validate_small_straight (dice : List (Option Nat)) : Except Err Bool :=
  let faces := presentFaces dice
  if faces.isEmpty then
    .error Err.valueError
  else
    match mapExcept validate_straight (sublistsDropOne faces) with
    | .error e => .error e
    | .ok results => .ok (results.any id)

/-- `validators.find_duplicates(values)`: the values whose `Counter` count
exceeds 1, in first-occurrence order. -/
def find_duplicates (values : List String) : List String :=
  (firstDedup values).filter (fun v => decide (1 < values.count v))

/-- The variants of `ScoringRule` (`rules.py`): each constant-score rule
carries its `score_value`, each parametric rule its parameters. -/
inductive RuleKind where
  | chance
  | multiples (face_value : Nat)
  | nofkind (n : Nat)
  | yahtzee (score_value : Nat)
  | fullHouse (large_n small_n score_value : Nat)
  | largeStraight (score_value : Nat)
  | smallStraight (score_value : Nat)
deriving DecidableEq, Repr

/-- `_sum_all_showing_faces(dice)`. -/
def sumAllShowingFaces (dice : List (Option Nat)) : Nat :=
  (presentFaces dice).sum

/-- `validators.find_matching_dice(dice, face_value)` restricted to the faces:
the present dice whose showing face equals `face_value`. -/
def findMatchingFaces (dice : List (Option Nat)) (face_value : Nat) : List Nat :=
  (presentFaces dice).filter (fun f => decide (f = face_value))

/-- `_sum_matching_faces(dice, face_value)`. -/
def sumMatchingFaces (dice : List (Option Nat)) (face_value : Nat) : Nat :=
  (findMatchingFaces dice face_value).sum

/-- `NofKindScoringRule.validate(dice)`:
`any(validate_nofkind(dice, x) for x in range(n, len(dice) + 1))`. -/
def nofkindValidate (dice : List (Option Nat)) (n : Nat) : Bool :=
  ((List.range' n (dice.length + 1 - n)).map
    (fun x => validate_nofkind dice x)).any id

/-- The `validate` method of each rule variant.  Full-house and straight
validators can raise, so the result is `Except`. -/
def ruleValidate : RuleKind → List (Option Nat) → Except Err Bool
  | .chance, _ => .ok true
  | .multiples _, _ => .ok true
  | .nofkind n, dice => .ok (nofkindValidate dice n)
  | .yahtzee _, dice => .ok (validate_nofkind dice dice.length)
  | .fullHouse large_n small_n _, dice => validate_full_house dice large_n small_n
  | .largeStraight _, dice => validate_large_straight dice
  | .smallStraight _, dice => validate_small_straight dice

/-- The points awarded by each variant when its validation succeeds
(`score_value` for constant-pattern rules, `_scoring_func` for variable ones). -/
def ruleScoreValue : RuleKind → List (Option Nat) → Nat
  | .chance, dice => sumAllShowingFaces dice
  | .multiples face_value, dice => sumMatchingFaces dice face_value
  | .nofkind _, dice => sumAllShowingFaces dice
  | .yahtzee score_value, _ => score_value
  | .fullHouse _ _ score_value, _ => score_value
  | .largeStraight score_value, _ => score_value
  | .smallStraight score_value, _ => score_value

/-- `_score_dice(dice)` (shared by `ConstantPatternScoringRule` and
`VariablePatternScoringRule`): validate, then score-or-zero. -/
def scoreDice (kind : RuleKind) (dice : List (Option Nat)) : Except Err Nat :=
  match ruleValidate kind dice with
  | .error e => .error e
  | .ok valid => .ok (if valid then ruleScoreValue kind dice else 0)

/-- A `ScoringRule` (`rules.py`): name, sheet section, variant, and the
mutable `rule_score` (`None` until scored). -/
structure ScoringRule where
  name : String
  sect : Sect
  kind : RuleKind
  rule_score : Option Nat := none
deriving DecidableEq, Repr

/-- `ScoringRule._check_rule_not_scored`. -/
def ScoringRule._check_rule_not_scored (r : ScoringRule) : Bool :=
  r.rule_score.isNone

/-- `ScoringRule.score(dice)`: store `_score_dice(dice)` when unscored,
raise `RuleAlreadyScoredError` otherwise. -/
def ScoringRule.score (r : ScoringRule) (dice : List (Option Nat)) :
    Except Err ScoringRule :=
  if r._check_rule_not_scored then
    match scoreDice r.kind dice with
    | .error e => .error e
    | .ok v => .ok { r with rule_score := some v }
  else
    .error (Err.ruleAlreadyScored r.name)

/-- The variants of `BonusRule` (`rules.py`).  A `YahtzeeBonusRule` scores
exactly like a `CountBonusRule`; it additionally records the name of its
associated Yahtzee rule (informational only). -/
inductive BonusKind where
  | threshold (threshold : Nat)
  | count
  | yahtzeeBonus (yahtzee_rule : String)
deriving DecidableEq, Repr

/-- A `BonusRule`: name, section, variant, `bonus_value`, the mutable
`counter` (constructor default 0) and `rule_score` (`None` until scored),
and the optional `req_rules` (modelled by rule names, see the header). -/
structure BonusRule where
  name : String
  sect : Sect
  kind : BonusKind
  bonus_value : Nat
  counter : Nat := 0
  req_rules : Option (List String) := none
  rule_score : Option Nat := none
deriving DecidableEq, Repr

/-- `BonusRule.increment(amt)`: `self.counter += amt`. -/
def BonusRule.increment (b : BonusRule) (amt : Nat := 1) : BonusRule :=
  { b with counter := b.counter + amt }

/-- `BonusRule._check_rule_not_scored`. -/
def BonusRule._check_rule_not_scored (b : BonusRule) : Bool :=
  b.rule_score.isNone

/-- `_score_bonus()` of each bonus variant: threshold bonuses pay
`bonus_value` when `counter >= threshold`, count bonuses pay
`counter * bonus_value`. -/
def scoreBonus (b : BonusRule) : Nat :=
  match b.kind with
  | .threshold threshold => if b.counter ≥ threshold then b.bonus_value else 0
  | .count => b.counter * b.bonus_value
  | .yahtzeeBonus _ => b.counter * b.bonus_value

/-- `BonusRule.score()`: store `_score_bonus()` when unscored, raise
`RuleAlreadyScoredError` otherwise. -/
def BonusRule.score (b : BonusRule) : Except Err BonusRule :=
  if b._check_rule_not_scored then
    .ok { b with rule_score := some (scoreBonus b) }
  else
    .error (Err.ruleAlreadyScored b.name)

/-- A `Scoresheet` (`scoresheet.py`): ordered rules, ordered bonuses, and the
designated Yahtzee bonus.  `rules_map` ({1: name, 2: name, ...}) is not stored:
it is recomputed from `rules`, whose names and order never change after
construction (scoring only replaces a rule's `rule_score`). -/
structure Scoresheet where
  rules : List ScoringRule
  bonuses : List BonusRule
  yahtzee_bonus : BonusRule
deriving DecidableEq, Repr

/-- The name list `rule_names + bonus_names + [yahtzee_bonus.name]` checked by
`Scoresheet._validate_rule_names`. -/
def allNames (rules : List ScoringRule) (bonuses : List BonusRule)
    (yahtzee_bonus : BonusRule) : List String :=
  rules.map (fun r => r.name) ++ bonuses.map (fun b => b.name) ++
    [yahtzee_bonus.name]

/-- `Scoresheet.__init__`: validate name uniqueness
(`DuplicateRuleNamesError` carrying the duplicated names) then build the sheet. -/
def mkScoresheet (rules : List ScoringRule) (bonuses : List BonusRule)
    (yahtzee_bonus : BonusRule) : Except Err Scoresheet :=
  let duplicate_names := find_duplicates (allNames rules bonuses yahtzee_bonus)
  if duplicate_names.isEmpty then
    .ok { rules := rules, bonuses := bonuses, yahtzee_bonus := yahtzee_bonus }
  else
    .error (Err.duplicateRuleNames duplicate_names)

/-- `Scoresheet._get_rule_from_name(name)`: the first rule with that name
(`next(...)`, `none` modelling `StopIteration`). -/
def getRuleFromName (rules : List ScoringRule) (name : String) :
    Option ScoringRule :=
  rules.find? (fun r => decide (r.name = name))

/-- `Scoresheet._get_name_from_index(index)`: `self.rules_map[index]`, the
1-based display index; a missing key raises `KeyError` (modelled by `none`). -/
def Scoresheet.getNameFromIndex (s : Scoresheet) (index : Nat) : Option String :=
  if 1 ≤ index then (s.rules.get? (index - 1)).map (fun r => r.name) else none

/-- `Scoresheet._update_rule_score(name, dice)`: find the first rule with the
given name and call its `score(dice)` (which mutates it in place; here the
updated list is returned). -/
def scoreTheRule (rules : List ScoringRule) (name : String)
    (dice : List (Option Nat)) : Except Err (List ScoringRule) :=
  match rules with
  | [] => .error Err.stopIteration
  | r :: rest =>
    if r.name = name then
      match r.score dice with
      | .error e => .error e
      | .ok r2 => .ok (r2 :: rest)
    else
      match scoreTheRule rest name dice with
      | .error e => .error e
      | .ok rest2 => .ok (r :: rest2)

/-- `Scoresheet._update_dep_bonuses(name)`: refetch the (just scored) rule by
name and, for every bonus with `bonus.req_rules and rule in bonus.req_rules`,
increment that bonus by `rule.rule_score`.  The `none` branch is unreachable
in `update_score` (the rule was just found and scored). -/
def updateDepBonuses (s : Scoresheet) (name : String) : Scoresheet :=
  match getRuleFromName s.rules name with
  | none => s
  | some rule =>
    { s with
      bonuses := s.bonuses.map (fun b =>
        if rule.name ∈ b.req_rules.getD [] then
          b.increment (rule.rule_score.getD 0)
        else b) }

/-- `Scoresheet.update_score(index, dice)`: resolve the display index to a
name, score that rule, then propagate to dependent bonuses. -/
def Scoresheet.update_score (s : Scoresheet) (index : Nat)
    (dice : List (Option Nat)) : Except Err Scoresheet :=
  match s.getNameFromIndex index with
  | none => .error Err.keyError
  | some name =>
    match scoreTheRule s.rules name dice with
    | .error e => .error e
    | .ok rules2 => .ok (updateDepBonuses { s with rules := rules2 } name)

/-- `Scoresheet.update_yahtzee_bonus(amt)`. -/
def Scoresheet.update_yahtzee_bonus (s : Scoresheet) (amt : Nat := 1) :
    Scoresheet :=
  { s with yahtzee_bonus := s.yahtzee_bonus.increment amt }

/-- `Scoresheet._get_section_subtotal_score(section)`: refetch each rule of the
section by name, collect the `rule_score`s, and `sum([s for s in scores if s])`
(Python truthiness drops both `None` and `0`). -/
def Scoresheet._get_section_subtotal_score (s : Scoresheet) (sec : Sect) : Nat :=
  let section_rules :=
    (s.rules.filter (fun r => decide (r.sect = sec))).filterMap
      (fun r => getRuleFromName s.rules r.name)
  let section_scores := section_rules.map (fun r => r.rule_score)
  (((section_scores.filterMap id).filter (fun v => decide (v ≠ 0)))).sum

/-- Total version of the straight check (`false` on the empty list, which the
code never reaches when every subset is non-empty); describes the booleans
produced by `mapExcept validate_straight`. -/
def straightCheckL : List Nat → Bool
  | [] => false
  | x :: xs => straightCheck x xs

/-- The spec's notion of a straight, stated in the spec's own words
("contiguous range, no duplicates"): the list holds exactly the values of
some length-`l.length` interval, each once.  Used to settle the straight
claims against the code's `validate_straight`. -/
def straightSpec (l : List Nat) : Prop :=
  l.Nodup ∧ ∃ a : Nat, ∀ y : Nat, y ∈ l ↔ (a ≤ y ∧ y < a + l.length)

/-! ### Concrete fixtures used by the witness theorems -/

/-- An already-scored chance rule. -/
def wScoredRule : ScoringRule :=
  { name := "chance", sect := Sect.lower, kind := RuleKind.chance,
    rule_score := some 7 }

/-- An upper-section threshold bonus, as constructed by the defaults. -/
def wBonus : BonusRule :=
  { name := "upper bonus", sect := Sect.upper, kind := BonusKind.threshold 63,
    bonus_value := 35 }

/-- `wBonus` after a (successful) call to `score`. -/
def wBonusScored : BonusRule :=
  { wBonus with rule_score := some 0 }

/-- An unscored `NofKindScoringRule(n=3)`. -/
def wNofkindRule : ScoringRule :=
  { name := "three of a kind", sect := Sect.lower, kind := RuleKind.nofkind 3 }

/-- Two distinct rules that share the name `"rule"`. -/
def wDupRule1 : ScoringRule :=
  { name := "rule", sect := Sect.upper, kind := RuleKind.chance }

/-- Second rule named `"rule"`. -/
def wDupRule2 : ScoringRule :=
  { name := "rule", sect := Sect.lower, kind := RuleKind.chance }

/-- A Yahtzee bonus rule fixture. -/
def wYahtzeeBonus : BonusRule :=
  { name := "yahtzee bonus", sect := Sect.lower,
    kind := BonusKind.yahtzeeBonus "yahtzee", bonus_value := 100 }

/-- A scoresheet with two Upper rules scored 5 / unscored and two Lower rules
scored 10 / unscored. -/
def wSubtotalSheet : Scoresheet :=
  { rules :=
      [{ name := "aces", sect := Sect.upper, kind := RuleKind.multiples 1,
         rule_score := some 5 },
       { name := "twos", sect := Sect.upper, kind := RuleKind.multiples 2 },
       { name := "chance", sect := Sect.lower, kind := RuleKind.chance,
         rule_score := some 10 },
       { name := "four of a kind", sect := Sect.lower,
         kind := RuleKind.nofkind 4 }],
    bonuses := [],
    yahtzee_bonus := wYahtzeeBonus }

/-- Two scoring rules for the bonus-propagation scenario. -/
def wC5Rule1 : ScoringRule :=
  { name := "ones", sect := Sect.upper, kind := RuleKind.multiples 1 }

/-- Second rule of the bonus-propagation scenario. -/
def wC5Rule2 : ScoringRule :=
  { name := "lower chance", sect := Sect.lower, kind := RuleKind.chance }

/-- A bonus depending on the rule named `"ones"`. -/
def wC5Bonus1 : BonusRule :=
  { name := "bonus upper", sect := Sect.upper, kind := BonusKind.threshold 63,
    bonus_value := 35, req_rules := some ["ones"] }

/-- An unrelated bonus with no required rules. -/
def wC5Bonus2 : BonusRule :=
  { name := "bonus lower", sect := Sect.lower, kind := BonusKind.count,
    bonus_value := 100 }

/-- The bonus-propagation scoresheet. -/
def wC5Sheet : Scoresheet :=
  { rules := [wC5Rule1, wC5Rule2],
    bonuses := [wC5Bonus1, wC5Bonus2],
    yahtzee_bonus := wYahtzeeBonus }

/-- The same sheet with its first rule already scored. -/
def wC5SheetScored : Scoresheet :=
  { wC5Sheet with
    rules := [{ wC5Rule1 with rule_score := some 2 }, wC5Rule2] }

end YahtzeeSpec

/-! ### Theorems -/

namespace YahtzeeSpec

/-- Claim C1: for every scoring rule and every bonus rule, once `rule_score`
is set every further `score` call fails with `RuleAlreadyScoredError` naming
the rule, so the stored value is never overwritten (a successful `score`
is only possible from the unscored state, and a failing call returns no
updated rule, leaving the state unchanged). -/
theorem score_after_scored_always_fails :
    (∀ (r : ScoringRule) (dice : List (Option Nat)) (v : Nat),
        r.rule_score = some v →
        r.score dice = Except.error (Err.ruleAlreadyScored r.name)) ∧
    (∀ (r : ScoringRule) (dice : List (Option Nat)) (r2 : ScoringRule),
        r.score dice = Except.ok r2 → r.rule_score = none) ∧
    (∀ (b : BonusRule) (v : Nat),
        b.rule_score = some v →
        b.score = Except.error (Err.ruleAlreadyScored b.name)) ∧
    (∀ (b : BonusRule) (b2 : BonusRule),
        b.score = Except.ok b2 → b.rule_score = none) := by
  refine ⟨?_, ?_, ?_, ?_⟩
  · intro r dice v h
    simp [ScoringRule.score, ScoringRule._check_rule_not_scored, h]
  · intro r dice r2 h
    cases hr : r.rule_score with
    | none => rfl
    | some v =>
      simp [ScoringRule.score, ScoringRule._check_rule_not_scored, hr] at h
  · intro b v h
    simp [BonusRule.score, BonusRule._check_rule_not_scored, h]
  · intro b b2 h
    cases hr : b.rule_score with
    | none => rfl
    | some v =>
      simp [BonusRule.score, BonusRule._check_rule_not_scored, hr] at h

/-- Witness for C1 at concrete inputs: a rule with `rule_score = some 7` and a
bonus with `rule_score = some 0` both fail with `RuleAlreadyScoredError`. -/
theorem score_after_scored_always_fails_witness :
    wScoredRule.score [some 1, some 2] =
      Except.error (Err.ruleAlreadyScored "chance") ∧
    wBonusScored.score = Except.error (Err.ruleAlreadyScored "upper bonus") :=
  ⟨score_after_scored_always_fails.1 wScoredRule [some 1, some 2] 7 rfl,
   score_after_scored_always_fails.2.2.1 wBonusScored 0 rfl⟩

/-- Claim C8: a bonus rule's counter starts at 0 (constructor default), and no
operation decrements it: `increment(amt)` adds exactly `amt` (no upper bound,
and it is a total function, so it succeeds in every state, scored or not) and
leaves `rule_score` untouched, while `score` leaves `counter` untouched. -/
theorem bonus_counter_starts_at_zero_and_never_decreases :
    (∀ (name : String) (sec : Sect) (kind : BonusKind) (bonus_value : Nat)
        (req : Option (List String)),
        ({ name := name, sect := sec, kind := kind, bonus_value := bonus_value,
           req_rules := req } : BonusRule).counter = 0) ∧
    (∀ (b : BonusRule) (amt : Nat),
        (b.increment amt).counter = b.counter + amt ∧
        (b.increment amt).rule_score = b.rule_score ∧
        b.counter ≤ (b.increment amt).counter) ∧
    (∀ (b b2 : BonusRule), b.score = Except.ok b2 → b2.counter = b.counter) := by
  refine ⟨fun _ _ _ _ _ => rfl,
          fun b amt => ⟨rfl, rfl, Nat.le_add_right _ _⟩, ?_⟩
  intro b b2 h
  cases hr : b.rule_score with
  | none =>
    simp [BonusRule.score, BonusRule._check_rule_not_scored, hr] at h
    rw [← h]
  | some v =>
    simp [BonusRule.score, BonusRule._check_rule_not_scored, hr] at h

/-- Witness for C8 at concrete inputs: the default-constructed bonus has
counter 0, incrementing by 5 gives 5 without touching `rule_score`, and a
successful `score` keeps the counter. -/
theorem bonus_counter_starts_at_zero_and_never_decreases_witness :
    wBonus.counter = 0 ∧
    (wBonus.increment 5).counter = wBonus.counter + 5 ∧
    (wBonus.increment 5).rule_score = wBonus.rule_score ∧
    wBonusScored.counter = wBonus.counter :=
  ⟨bonus_counter_starts_at_zero_and_never_decreases.1 "upper bonus" Sect.upper
     (BonusKind.threshold 63) 35 none,
   (bonus_counter_starts_at_zero_and_never_decreases.2.1 wBonus 5).1,
   (bonus_counter_starts_at_zero_and_never_decreases.2.1 wBonus 5).2.1,
   bonus_counter_starts_at_zero_and_never_decreases.2.2 wBonus wBonusScored
     rfl⟩

end YahtzeeSpec

namespace YahtzeeSpec

/-- `firstDedup` keeps exactly the values of the original list. -/
theorem mem_firstDedup {α : Type} [DecidableEq α] (l : List α) (y : α) :
    y ∈ firstDedup l ↔ y ∈ l := by
  induction l with
  | nil => simp [firstDedup]
  | cons x xs ih =>
    simp only [firstDedup, List.mem_cons, List.mem_filter, ih,
      decide_eq_true_eq]
    by_cases hyx : y = x <;> simp [hyx]

/-- `validate_nofkind(dice, n)` holds exactly when some present face occurs
exactly `n` times among the present faces. -/
theorem validate_nofkind_iff (dice : List (Option Nat)) (n : Nat) :
    validate_nofkind dice n = true ↔
      ∃ f ∈ presentFaces dice, (presentFaces dice).count f = n := by
  unfold validate_nofkind counterValues
  simp [mem_firstDedup, eq_comm]

/-- Membership in the present faces. -/
theorem mem_presentFaces (dice : List (Option Nat)) (f : Nat) :
    f ∈ presentFaces dice ↔ some f ∈ dice := by
  simp [presentFaces, List.mem_filterMap]

/-- An absent die makes the present faces strictly shorter than the dice
list. -/
theorem presentFaces_length_lt (dice : List (Option Nat)) (h : none ∈ dice) :
    (presentFaces dice).length < dice.length := by
  induction dice with
  | nil => cases h
  | cons d ds ih =>
    cases d with
    | none =>
      calc (presentFaces (none :: ds)).length
          = (presentFaces ds).length := rfl
        _ ≤ ds.length := List.length_filterMap_le id ds
        _ < (none :: ds).length := by simp
    | some v =>
      have hm : none ∈ ds := by
        rcases List.mem_cons.mp h with h1 | h1
        · exact absurd h1 (by simp)
        · exact h1
      calc (presentFaces (some v :: ds)).length
          = (presentFaces ds).length + 1 := rfl
        _ < ds.length + 1 := Nat.succ_lt_succ (ih hm)
        _ = (some v :: ds).length := by simp

/-- With no absent die, the present faces and the dice list have the same
length. -/
theorem presentFaces_length_eq (dice : List (Option Nat)) (h : none ∉ dice) :
    (presentFaces dice).length = dice.length := by
  induction dice with
  | nil => rfl
  | cons d ds ih =>
    cases d with
    | none => exact absurd (List.mem_cons_self _ _) h
    | some v =>
      have hm : none ∉ ds := fun hc => h (List.mem_cons_of_mem _ hc)
      calc (presentFaces (some v :: ds)).length
          = (presentFaces ds).length + 1 := rfl
        _ = ds.length + 1 := by rw [ih hm]
        _ = (some v :: ds).length := by simp

end YahtzeeSpec

namespace YahtzeeSpec

/-- Claim C4: `validate_full_house(dice, large_n, small_n)` raises
`RuleInputValueError` exactly when `small_n >= large_n` (before looking at the
dice); otherwise it returns true exactly when an exact `large_n`-of-a-kind and
an exact `small_n`-of-a-kind are simultaneously present — in particular true
on faces `[1,1,6,6,6]` with `(3,2)`, false on `[1,1,1,4,5]` and `[1,2,3,4,5]`,
and an error with `(2,3)`. -/
theorem full_house_validator_spec (dice : List (Option Nat))
    (large_n small_n : Nat) :
    ((validate_full_house dice large_n small_n =
        Except.error Err.ruleInputValue) ↔ large_n ≤ small_n) ∧
    (small_n < large_n →
      (validate_full_house dice large_n small_n = Except.ok true ↔
        ((∃ f ∈ presentFaces dice, (presentFaces dice).count f = large_n) ∧
         (∃ g ∈ presentFaces dice, (presentFaces dice).count g = small_n)))) ∧
    validate_full_house [some 1, some 1, some 6, some 6, some 6] 3 2 =
      Except.ok true ∧
    validate_full_house [some 1, some 1, some 1, some 4, some 5] 3 2 =
      Except.ok false ∧
    validate_full_house [some 1, some 2, some 3, some 4, some 5] 3 2 =
      Except.ok false ∧
    validate_full_house [some 1, some 1, some 6, some 6, some 6] 2 3 =
      Except.error Err.ruleInputValue := by
  refine ⟨?_, ?_, rfl, rfl, rfl, rfl⟩
  · constructor
    · intro h
      by_contra hle
      have hlt : ¬ small_n ≥ large_n := fun hc => hle hc
      unfold validate_full_house at h
      rw [if_neg hlt] at h
      exact Except.noConfusion h
    · intro h
      unfold validate_full_house
      rw [if_pos h]
  · intro hlt
    unfold validate_full_house
    rw [if_neg (by omega)]
    rw [show (Except.ok (validate_nofkind dice small_n &&
        validate_nofkind dice large_n) = (Except.ok true : Except Err Bool)) ↔
        (validate_nofkind dice small_n && validate_nofkind dice large_n) = true
      from ⟨fun h => by injection h, fun h => by rw [h]⟩]
    rw [Bool.and_eq_true]
    rw [validate_nofkind_iff, validate_nofkind_iff]
    exact and_comm

/-- Witness for C4 at a concrete input: with `large_n=2, small_n=3` the
validator fails with `RuleInputValueError`. -/
theorem full_house_validator_spec_witness :
    validate_full_house [some 1, some 1, some 6, some 6, some 6] 2 3 =
      Except.error Err.ruleInputValue :=
  (full_house_validator_spec [some 1, some 1, some 6, some 6, some 6]
    2 3).1.mpr (by decide)

/-- Claim C2: an unscored `NofKindScoringRule(n)` validates exactly when some
present face occurs exactly `m` times for some `m` between `n` and the dice
count, and scoring stores the sum of all present faces when it validates and
0 otherwise; in particular `NofKind(3)` scores 12 on `[1,1,1,4,5]`, 5 on
`[1,1,1,1,1]` and 0 on `[1,2,3,4,5]`. -/
theorem nofkind_rule_spec (dice : List (Option Nat)) (n : Nat)
    (r : ScoringRule) (hk : r.kind = RuleKind.nofkind n)
    (hu : r.rule_score = none) :
    (ruleValidate r.kind dice = Except.ok true ↔
      ∃ f ∈ presentFaces dice, ∃ m, n ≤ m ∧ m ≤ dice.length ∧
        (presentFaces dice).count f = m) ∧
    (r.score dice = Except.ok
      { r with
        rule_score := some (if nofkindValidate dice n then
          sumAllShowingFaces dice else 0) }) ∧
    scoreDice (RuleKind.nofkind 3) [some 1, some 1, some 1, some 4, some 5] =
      Except.ok 12 ∧
    scoreDice (RuleKind.nofkind 3) [some 1, some 1, some 1, some 1, some 1] =
      Except.ok 5 ∧
    scoreDice (RuleKind.nofkind 3) [some 1, some 2, some 3, some 4, some 5] =
      Except.ok 0 := by
  refine ⟨?_, ?_, rfl, rfl, rfl⟩
  · rw [hk]
    show Except.ok (nofkindValidate dice n) = Except.ok true ↔ _
    rw [show (Except.ok (nofkindValidate dice n) =
        (Except.ok true : Except Err Bool)) ↔ nofkindValidate dice n = true
      from ⟨fun h => by injection h, fun h => by rw [h]⟩]
    unfold nofkindValidate
    rw [List.any_eq_true]
    constructor
    · rintro ⟨b, hb, hid⟩
      rcases List.mem_map.mp hb with ⟨m, hm, rfl⟩
      rcases (validate_nofkind_iff dice m).mp (by simpa using hid) with
        ⟨f, hf, hc⟩
      have h1 : n ≤ m := (List.mem_range'_1.mp hm).1
      have h2 : m ≤ dice.length := by
        have hcl := List.count_le_length f (presentFaces dice)
        have hfl : (presentFaces dice).length ≤ dice.length :=
          List.length_filterMap_le id dice
        omega
      exact ⟨f, hf, m, h1, h2, hc⟩
    · rintro ⟨f, hf, m, h1, h2, hc⟩
      refine ⟨validate_nofkind dice m, List.mem_map.mpr ⟨m, ?_, rfl⟩, ?_⟩
      · exact List.mem_range'_1.mpr ⟨h1, by omega⟩
      · simpa using (validate_nofkind_iff dice m).mpr ⟨f, hf, hc⟩
  · simp [ScoringRule.score, ScoringRule._check_rule_not_scored, hu, hk,
      scoreDice, ruleValidate, ruleScoreValue]

/-- Witness for C2 at a concrete input: the unscored `NofKind(3)` rule scores
faces `[1,1,1,4,5]` and stores 12. -/
theorem nofkind_rule_spec_witness :
    wNofkindRule.score [some 1, some 1, some 1, some 4, some 5] =
      Except.ok { wNofkindRule with rule_score := some 12 } :=
  (nofkind_rule_spec [some 1, some 1, some 1, some 4, some 5] 3
    wNofkindRule rfl rfl).2.1

/-- Claim C10: `YahtzeeScoringRule.validate(dice)` checks for an exact
n-of-a-kind with `n = len(dice)`, the length counting absent entries: with at
least one absent entry it is false even if all present faces agree, and with
no absent entry (and at least one die) it is true exactly when all faces are
equal. -/
theorem yahtzee_validate_spec (dice : List (Option Nat)) (sv : Nat) :
    (none ∈ dice →
      ruleValidate (RuleKind.yahtzee sv) dice = Except.ok false) ∧
    (none ∉ dice → dice ≠ [] →
      (ruleValidate (RuleKind.yahtzee sv) dice = Except.ok true ↔
        ∃ f, ∀ d ∈ dice, d = some f)) := by
  constructor
  · intro h
    show Except.ok (validate_nofkind dice dice.length) = Except.ok false
    cases hb : validate_nofkind dice dice.length with
    | false => rfl
    | true =>
      exfalso
      rcases (validate_nofkind_iff dice dice.length).mp hb with ⟨f, hf, hc⟩
      have h1 := List.count_le_length f (presentFaces dice)
      have h2 := presentFaces_length_lt dice h
      omega
  · intro hn hne
    show Except.ok (validate_nofkind dice dice.length) = Except.ok true ↔ _
    rw [show (Except.ok (validate_nofkind dice dice.length) =
        (Except.ok true : Except Err Bool)) ↔
        validate_nofkind dice dice.length = true
      from ⟨fun h => by injection h, fun h => by rw [h]⟩]
    rw [validate_nofkind_iff]
    constructor
    · rintro ⟨f, hf, hc⟩
      refine ⟨f, fun d hd => ?_⟩
      cases d with
      | none => exact absurd hd hn
      | some x =>
        have hx : x ∈ presentFaces dice := (mem_presentFaces dice x).mpr hd
        have := (List.count_eq_length.mp
          (by rw [hc, presentFaces_length_eq dice hn])) x hx
        rw [← this]
    · rintro ⟨f, hall⟩
      rcases List.exists_mem_of_ne_nil dice hne with ⟨d, hd⟩
      have hdf : d = some f := hall d hd
      have hf : f ∈ presentFaces dice :=
        (mem_presentFaces dice f).mpr (hdf ▸ hd)
      refine ⟨f, hf, ?_⟩
      rw [← presentFaces_length_eq dice hn]
      exact List.count_eq_length.mpr (fun b hb => by
        have := hall (some b) ((mem_presentFaces dice b).mp hb)
        injection this with h
        rw [h])

/-- Witness for C10 at concrete inputs: `[3,3,absent]` does not validate, and
`[3,3,3]` validates exactly because all faces agree. -/
theorem yahtzee_validate_spec_witness :
    ruleValidate (RuleKind.yahtzee 50) [some 3, some 3, none] =
      Except.ok false ∧
    (ruleValidate (RuleKind.yahtzee 50) [some 3, some 3, some 3] =
        Except.ok true ↔
      ∃ f, ∀ d ∈ [some 3, some 3, some 3], d = some f) :=
  ⟨(yahtzee_validate_spec [some 3, some 3, none] 50).1 (by decide),
   (yahtzee_validate_spec [some 3, some 3, some 3] 50).2 (by decide)
     (by decide)⟩

end YahtzeeSpec

namespace YahtzeeSpec

/-- A value is reported by `find_duplicates` exactly when it occurs more than
once in the list. -/
theorem mem_find_duplicates (values : List String) (y : String) :
    y ∈ find_duplicates values ↔ (y ∈ values ∧ 1 < values.count y) := by
  simp [find_duplicates, List.mem_filter, mem_firstDedup]

/-- Claim C6: scoresheet construction fails with `DuplicateRuleNamesError`
exactly when some name occurs more than once in the shared namespace of rule
names, bonus names and the Yahtzee-bonus name; the error carries exactly the
duplicated names (which the message interpolates), and a successful
construction keeps the given rules and has pairwise-distinct names. -/
theorem scoresheet_rejects_duplicate_names (rules : List ScoringRule)
    (bonuses : List BonusRule) (yb : BonusRule) :
    ((∃ d, mkScoresheet rules bonuses yb =
        Except.error (Err.duplicateRuleNames d)) ↔
      ∃ n, 1 < (allNames rules bonuses yb).count n) ∧
    (∀ d, mkScoresheet rules bonuses yb =
        Except.error (Err.duplicateRuleNames d) →
      ∀ n, (n ∈ d ↔ 1 < (allNames rules bonuses yb).count n)) ∧
    (∀ s, mkScoresheet rules bonuses yb = Except.ok s →
      s = { rules := rules, bonuses := bonuses, yahtzee_bonus := yb } ∧
      (allNames rules bonuses yb).Nodup) := by
  refine ⟨⟨?_, ?_⟩, ?_, ?_⟩
  · rintro ⟨d, hd⟩
    unfold mkScoresheet at hd
    by_cases he : (find_duplicates (allNames rules bonuses yb)).isEmpty
    · rw [if_pos he] at hd
      exact Except.noConfusion hd
    · rcases List.exists_mem_of_ne_nil _
        (by simpa [List.isEmpty_iff] using he) with ⟨n, hn⟩
      rcases (mem_find_duplicates _ _).mp hn with ⟨_, hc⟩
      exact ⟨n, hc⟩
  · rintro ⟨n, hc⟩
    have hne : ¬ (find_duplicates (allNames rules bonuses yb)).isEmpty := by
      intro he
      have hnil : find_duplicates (allNames rules bonuses yb) = [] :=
        List.isEmpty_iff.mp he
      have hmem : n ∈ find_duplicates (allNames rules bonuses yb) :=
        (mem_find_duplicates _ _).mpr
          ⟨List.count_pos_iff.mp (by omega), hc⟩
      rw [hnil] at hmem
      cases hmem
    refine ⟨find_duplicates (allNames rules bonuses yb), ?_⟩
    unfold mkScoresheet
    rw [if_neg hne]
  · intro d hd n
    unfold mkScoresheet at hd
    by_cases he : (find_duplicates (allNames rules bonuses yb)).isEmpty
    · rw [if_pos he] at hd
      exact Except.noConfusion hd
    · rw [if_neg he] at hd
      have h1 : Err.duplicateRuleNames
          (find_duplicates (allNames rules bonuses yb)) =
          Err.duplicateRuleNames d := by
        injection hd
      have h2 : find_duplicates (allNames rules bonuses yb) = d := by
        injection h1
      rw [← h2, mem_find_duplicates]
      constructor
      · rintro ⟨_, hc⟩
        exact hc
      · intro hc
        exact ⟨List.count_pos_iff.mp (by omega), hc⟩
  · intro s hs
    unfold mkScoresheet at hs
    by_cases he : (find_duplicates (allNames rules bonuses yb)).isEmpty
    · rw [if_pos he] at hs
      have hnil : find_duplicates (allNames rules bonuses yb) = [] :=
        List.isEmpty_iff.mp he
      refine ⟨?_, ?_⟩
      · have := Except.ok.inj hs
        rw [← this]
      · rw [List.nodup_iff_count_le_one]
        intro a
        by_contra hgt
        have hmem : a ∈ find_duplicates (allNames rules bonuses yb) :=
          (mem_find_duplicates _ _).mpr
            ⟨List.count_pos_iff.mp (by omega), by omega⟩
        rw [hnil] at hmem
        cases hmem
    · rw [if_neg he] at hs
      exact Except.noConfusion hs

/-- Witness for C6 at concrete inputs: two rules named `"rule"` are rejected
with the duplicate list, and a collision-free rule set has pairwise-distinct
names. -/
theorem scoresheet_rejects_duplicate_names_witness :
    (∃ d, mkScoresheet [wDupRule1, wDupRule2] [] wYahtzeeBonus =
        Except.error (Err.duplicateRuleNames d)) ∧
    (allNames [wScoredRule] [] wYahtzeeBonus).Nodup :=
  ⟨(scoresheet_rejects_duplicate_names [wDupRule1, wDupRule2] []
      wYahtzeeBonus).1.mpr ⟨"rule", by decide⟩,
   ((scoresheet_rejects_duplicate_names [wScoredRule] [] wYahtzeeBonus).2.2
      { rules := [wScoredRule], bonuses := [], yahtzee_bonus := wYahtzeeBonus }
      rfl).2⟩

/-- Deduplication preserves the length exactly on duplicate-free lists. -/
theorem dedup_length_iff (l : List Nat) :
    l.dedup.length = l.length ↔ l.Nodup := by
  constructor
  · intro h
    have he := List.Sublist.eq_of_length (List.dedup_sublist l) h
    rw [← he]
    exact List.nodup_dedup l
  · intro h
    rw [List.dedup_eq_self.mpr h]

/-- Claim C9: `validate_straight` fails (`max`/`min` of an empty sequence)
exactly on the empty list and otherwise decides `max - min + 1 = length` with
all values distinct; consequently `validate_large_straight` on all-absent dice
and `validate_small_straight` on dice with at most one present die reach the
error instead of returning false. -/
theorem straight_validators_error_on_empty :
    validate_straight [] = Except.error Err.valueError ∧
    (∀ (x : Nat) (xs : List Nat),
      ∃ b, validate_straight (x :: xs) = Except.ok b ∧
        (b = true ↔ ((x :: xs).Nodup ∧
          foldMax x xs - foldMin x xs + 1 = xs.length + 1))) ∧
    (∀ dice : List (Option Nat), presentFaces dice = [] →
      validate_large_straight dice = Except.error Err.valueError) ∧
    (∀ dice : List (Option Nat), (presentFaces dice).length ≤ 1 →
      validate_small_straight dice = Except.error Err.valueError) := by
  refine ⟨rfl, ?_, ?_, ?_⟩
  · intro x xs
    refine ⟨straightCheck x xs, rfl, ?_⟩
    unfold straightCheck
    rw [Bool.and_eq_true, decide_eq_true_eq, decide_eq_true_eq,
      dedup_length_iff]
    constructor
    · rintro ⟨h1, h2⟩
      exact ⟨h2, by simpa using h1⟩
    · rintro ⟨h2, h1⟩
      exact ⟨by simpa using h1, h2⟩
  · intro dice h
    unfold validate_large_straight
    rw [h]
    rfl
  · intro dice h
    rcases hp : presentFaces dice with _ | ⟨f, rest⟩
    · simp [validate_small_straight, hp]
    · have hrest : rest = [] := by
        cases rest with
        | nil => rfl
        | cons g gs =>
          rw [hp] at h
          simp at h
      subst hrest
      simp [validate_small_straight, hp, sublistsDropOne, mapExcept,
        validate_straight]

/-- Witness for C9 at concrete inputs: a singleton value list yields a
returned boolean, while all-absent dice and a single-die list hit the
`ValueError` branches. -/
theorem straight_validators_error_on_empty_witness :
    (∃ b, validate_straight [2] = Except.ok b ∧
      (b = true ↔ (([2] : List Nat).Nodup ∧
        foldMax 2 [] - foldMin 2 [] + 1 = ([] : List Nat).length + 1))) ∧
    validate_large_straight [none] = Except.error Err.valueError ∧
    validate_small_straight [some 5] = Except.error Err.valueError :=
  ⟨straight_validators_error_on_empty.2.1 2 [],
   straight_validators_error_on_empty.2.2.1 [none] rfl,
   straight_validators_error_on_empty.2.2.2 [some 5] (by decide)⟩

end YahtzeeSpec

namespace YahtzeeSpec

/-- In a list of rules with pairwise-distinct names, looking a member rule up
by its own name returns that rule. -/
theorem getRuleFromName_self (l : List ScoringRule) (r : ScoringRule)
    (hnd : (l.map (fun x => x.name)).Nodup) (hr : r ∈ l) :
    getRuleFromName l r.name = some r := by
  induction l with
  | nil => cases hr
  | cons x xs ih =>
    rcases List.mem_cons.mp hr with h1 | h1
    · subst h1
      unfold getRuleFromName
      rw [List.find?_cons_of_pos _ (by simp)]
    · have hx : x.name ≠ r.name := by
        have h2 : x.name ∉ xs.map (fun x => x.name) :=
          (List.nodup_cons.mp hnd).1
        have h3 : r.name ∈ xs.map (fun x => x.name) :=
          List.mem_map.mpr ⟨r, h1, rfl⟩
        intro he
        rw [he] at h2
        exact h2 h3
      unfold getRuleFromName
      rw [List.find?_cons_of_neg _ (by simpa using hx)]
      exact ih (List.nodup_cons.mp hnd).2 h1

/-- Refetching each rule of a sublist by name is the identity when every
lookup returns the rule itself. -/
theorem filterMap_getRuleFromName (l : List ScoringRule)
    (sub : List ScoringRule)
    (hall : ∀ r ∈ sub, getRuleFromName l r.name = some r) :
    sub.filterMap (fun r => getRuleFromName l r.name) = sub := by
  induction sub with
  | nil => rfl
  | cons x xs ih =>
    rw [List.filterMap_cons, hall x (List.mem_cons_self _ _)]
    rw [ih (fun r hr => hall r (List.mem_cons_of_mem _ hr))]

/-- Summing the truthy values (`sum([s for s in scores if s])`) equals summing
with `None` read as 0 — dropping zeros does not change a sum. -/
theorem sum_truthy_scores (scores : List (Option Nat)) :
    (((scores.filterMap id).filter (fun v => decide (v ≠ 0)))).sum =
      (scores.map (fun o => o.getD 0)).sum := by
  induction scores with
  | nil => rfl
  | cons o os ih =>
    cases o with
    | none => simpa using ih
    | some v =>
      have he : List.filterMap id (some v :: os) = v :: List.filterMap id os :=
        by simp
      rw [he]
      by_cases hv : v = 0
      · subst hv
        simpa using ih
      · rw [List.filter_cons_of_pos (by simpa using hv)]
        simpa using congrArg (fun t => v + t) ih

/-- Claim C7: for any scoresheet (with its construction-guaranteed distinct
rule names) the section subtotal is the sum of `rule_score` over exactly the
rules of that section, unscored rules counting 0. -/
theorem section_subtotal_spec (s : Scoresheet) (sec : Sect)
    (hnd : (s.rules.map (fun r => r.name)).Nodup) :
    s._get_section_subtotal_score sec =
      ((s.rules.filter (fun r => decide (r.sect = sec))).map
        (fun r => r.rule_score.getD 0)).sum := by
  unfold Scoresheet._get_section_subtotal_score
  have hall : ∀ r ∈ s.rules.filter (fun r => decide (r.sect = sec)),
      getRuleFromName s.rules r.name = some r :=
    fun r hr => getRuleFromName_self s.rules r hnd (List.mem_of_mem_filter hr)
  rw [filterMap_getRuleFromName s.rules _ hall]
  rw [sum_truthy_scores]
  rw [List.map_map]
  rfl

/-- Witness for C7 at a concrete scoresheet: Upper rules scored 5 / unscored
and Lower rules scored 10 / unscored give subtotals 5 and 10. -/
theorem section_subtotal_spec_witness :
    (wSubtotalSheet.rules.map (fun r => r.name)).Nodup ∧
    wSubtotalSheet._get_section_subtotal_score Sect.upper =
      ((wSubtotalSheet.rules.filter
        (fun r => decide (r.sect = Sect.upper))).map
        (fun r => r.rule_score.getD 0)).sum ∧
    wSubtotalSheet._get_section_subtotal_score Sect.upper = 5 ∧
    wSubtotalSheet._get_section_subtotal_score Sect.lower = 10 :=
  ⟨by decide, section_subtotal_spec wSubtotalSheet Sect.upper (by decide),
   by decide, by decide⟩

end YahtzeeSpec

namespace YahtzeeSpec

/-- The seed is at most the Python `max` of the list. -/
theorem le_foldMax_self (x : Nat) (xs : List Nat) : x ≤ foldMax x xs := by
  induction xs generalizing x with
  | nil => exact Nat.le_refl x
  | cons z zs ih =>
    exact Nat.le_trans (Nat.le_max_left x z) (ih (Nat.max x z))

/-- Every element of a non-empty list is at most its Python `max`. -/
theorem le_foldMax (x : Nat) (xs : List Nat) (y : Nat) (hy : y ∈ x :: xs) :
    y ≤ foldMax x xs := by
  induction xs generalizing x with
  | nil =>
    rcases List.mem_cons.mp hy with h1 | h1
    · subst h1
      exact Nat.le_refl _
    · cases h1
  | cons z zs ih =>
    have hstep : foldMax x (z :: zs) = foldMax (Nat.max x z) zs := rfl
    rw [hstep]
    rcases List.mem_cons.mp hy with h1 | h1
    · subst h1
      exact Nat.le_trans (Nat.le_max_left y z) (le_foldMax_self _ zs)
    · rcases List.mem_cons.mp h1 with h2 | h2
      · subst h2
        exact Nat.le_trans (Nat.le_max_right x y) (le_foldMax_self _ zs)
      · exact ih (Nat.max x z) (List.mem_cons_of_mem _ h2)

/-- The Python `max` of a non-empty list is one of its elements. -/
theorem foldMax_mem (x : Nat) (xs : List Nat) : foldMax x xs ∈ x :: xs := by
  induction xs generalizing x with
  | nil => exact List.mem_cons_self _ _
  | cons z zs ih =>
    have hstep : foldMax x (z :: zs) = foldMax (Nat.max x z) zs := rfl
    rw [hstep]
    have h := ih (Nat.max x z)
    rcases List.mem_cons.mp h with h1 | h1
    · rcases Nat.le_total x z with h2 | h2
      · have h3 : Nat.max x z = z := Nat.max_eq_right h2
        rw [h1, h3]
        exact List.mem_cons_of_mem _ (List.mem_cons_self _ _)
      · have h3 : Nat.max x z = x := Nat.max_eq_left h2
        rw [h1, h3]
        exact List.mem_cons_self _ _
    · exact List.mem_cons_of_mem _ (List.mem_cons_of_mem _ h1)

/-- The Python `min` of the list is at most the seed. -/
theorem foldMin_le_self (x : Nat) (xs : List Nat) : foldMin x xs ≤ x := by
  induction xs generalizing x with
  | nil => exact Nat.le_refl x
  | cons z zs ih =>
    exact Nat.le_trans (ih (Nat.min x z)) (Nat.min_le_left x z)

/-- The Python `min` of a non-empty list bounds every element from below. -/
theorem foldMin_le (x : Nat) (xs : List Nat) (y : Nat) (hy : y ∈ x :: xs) :
    foldMin x xs ≤ y := by
  induction xs generalizing x with
  | nil =>
    rcases List.mem_cons.mp hy with h1 | h1
    · subst h1
      exact Nat.le_refl _
    · cases h1
  | cons z zs ih =>
    have hstep : foldMin x (z :: zs) = foldMin (Nat.min x z) zs := rfl
    rw [hstep]
    rcases List.mem_cons.mp hy with h1 | h1
    · subst h1
      exact Nat.le_trans (foldMin_le_self _ zs) (Nat.min_le_left y z)
    · rcases List.mem_cons.mp h1 with h2 | h2
      · subst h2
        exact Nat.le_trans (foldMin_le_self _ zs) (Nat.min_le_right x y)
      · exact ih (Nat.min x z) (List.mem_cons_of_mem _ h2)

/-- The Python `min` of a non-empty list is one of its elements. -/
theorem foldMin_mem (x : Nat) (xs : List Nat) : foldMin x xs ∈ x :: xs := by
  induction xs generalizing x with
  | nil => exact List.mem_cons_self _ _
  | cons z zs ih =>
    have hstep : foldMin x (z :: zs) = foldMin (Nat.min x z) zs := rfl
    rw [hstep]
    have h := ih (Nat.min x z)
    rcases List.mem_cons.mp h with h1 | h1
    · rcases Nat.le_total x z with h2 | h2
      · have h3 : Nat.min x z = x := Nat.min_eq_left h2
        rw [h1, h3]
        exact List.mem_cons_self _ _
      · have h3 : Nat.min x z = z := Nat.min_eq_right h2
        rw [h1, h3]
        exact List.mem_cons_of_mem _ (List.mem_cons_self _ _)
    · exact List.mem_cons_of_mem _ (List.mem_cons_of_mem _ h1)

/-- The code's straight check on a non-empty list decides exactly the spec's
"contiguous range, no duplicates". -/
theorem straightCheck_iff_spec (x : Nat) (xs : List Nat) :
    straightCheck x xs = true ↔ straightSpec (x :: xs) := by
  unfold straightCheck straightSpec
  rw [Bool.and_eq_true, decide_eq_true_eq, decide_eq_true_eq,
    dedup_length_iff]
  constructor
  · rintro ⟨hrange, hnd⟩
    have hmnx : foldMin x xs ≤ foldMax x xs :=
      foldMin_le x xs (foldMax x xs) (foldMax_mem x xs)
    refine ⟨hnd, foldMin x xs, fun y => ⟨?_, ?_⟩⟩
    · intro hy
      have h1 := foldMin_le x xs y hy
      have h2 := le_foldMax x xs y hy
      exact ⟨h1, by omega⟩
    · rintro ⟨h1, h2⟩
      have hsub : (x :: xs).toFinset ⊆
          Finset.Icc (foldMin x xs) (foldMax x xs) := by
        intro z hz
        rw [List.mem_toFinset] at hz
        rw [Finset.mem_Icc]
        exact ⟨foldMin_le x xs z hz, le_foldMax x xs z hz⟩
      have hcard : (Finset.Icc (foldMin x xs) (foldMax x xs)).card ≤
          (x :: xs).toFinset.card := by
        rw [Nat.card_Icc, List.card_toFinset, List.dedup_eq_self.mpr hnd]
        omega
      have heq := Finset.eq_of_subset_of_card_le hsub hcard
      have hy : y ∈ (x :: xs).toFinset := by
        rw [heq, Finset.mem_Icc]
        exact ⟨h1, by omega⟩
      exact List.mem_toFinset.mp hy
  · rintro ⟨hnd, a, hmem⟩
    have hl1 : 1 ≤ (x :: xs).length := by simp
    have ha : a ∈ x :: xs := (hmem a).mpr ⟨Nat.le_refl a, by omega⟩
    have htop : a + (x :: xs).length - 1 ∈ x :: xs :=
      (hmem _).mpr ⟨by omega, by omega⟩
    have hmn : foldMin x xs = a := by
      have h1 := foldMin_le x xs a ha
      have h2 := ((hmem (foldMin x xs)).mp (foldMin_mem x xs)).1
      omega
    have hmx : foldMax x xs = a + (x :: xs).length - 1 := by
      have h1 := le_foldMax x xs _ htop
      have h2 := ((hmem (foldMax x xs)).mp (foldMax_mem x xs)).2
      omega
    refine ⟨?_, hnd⟩
    rw [hmn, hmx]
    omega

/-- `sublistsDropOne` enumerates exactly the sublists obtained by dropping one
element. -/
theorem mem_sublistsDropOne (l : List Nat) (sub : List Nat) :
    sub ∈ sublistsDropOne l ↔
      (sub.Sublist l ∧ sub.length + 1 = l.length) := by
  induction l generalizing sub with
  | nil =>
    simp [sublistsDropOne]
  | cons x xs ih =>
    simp only [sublistsDropOne, List.mem_cons, List.mem_map]
    constructor
    · rintro (rfl | ⟨t, ht, rfl⟩)
      · exact ⟨List.sublist_cons_self _ _, by simp⟩
      · rcases (ih t).mp ht with ⟨hs, hlen⟩
        exact ⟨List.Sublist.cons₂ x hs, by simpa using hlen⟩
    · rintro ⟨hs, hlen⟩
      cases hs with
      | cons _ h =>
        left
        exact List.Sublist.eq_of_length h (by simpa using hlen)
      | cons₂ _ h =>
        right
        exact ⟨_, (ih _).mpr ⟨h, by simpa using hlen⟩, rfl⟩

/-- On a list of non-empty subsets the comprehension raises nothing and
returns the straight checks. -/
theorem mapExcept_validate_straight (l : List (List Nat))
    (h : ∀ a ∈ l, a ≠ []) :
    mapExcept validate_straight l = Except.ok (l.map straightCheckL) := by
  induction l with
  | nil => rfl
  | cons a as ih =>
    cases a with
    | nil => exact absurd rfl (h [] (List.mem_cons_self _ _))
    | cons x xs =>
      show mapExcept validate_straight ((x :: xs) :: as) = _
      unfold mapExcept
      rw [show validate_straight (x :: xs) = Except.ok (straightCheck x xs)
        from rfl]
      rw [ih (fun b hb => h b (List.mem_cons_of_mem _ hb))]
      rfl

end YahtzeeSpec

namespace YahtzeeSpec

/-- Claim C3: on dice with at least two present faces,
`validate_small_straight` returns a boolean which is true exactly when some
choice of all-but-one of the present faces forms a straight (a contiguous,
duplicate-free run); in particular true on faces `[1,1,2,3,4]` and false on
`[1,1,2,2,3]`. -/
theorem small_straight_spec (dice : List (Option Nat))
    (h : 2 ≤ (presentFaces dice).length) :
    (∃ b, validate_small_straight dice = Except.ok b) ∧
    (validate_small_straight dice = Except.ok true ↔
      ∃ sub : List Nat, sub.Sublist (presentFaces dice) ∧
        sub.length + 1 = (presentFaces dice).length ∧ straightSpec sub) ∧
    validate_small_straight [some 1, some 1, some 2, some 3, some 4] =
      Except.ok true ∧
    validate_small_straight [some 1, some 1, some 2, some 2, some 3] =
      Except.ok false := by
  have hne : ¬ (presentFaces dice).isEmpty = true := by
    intro he
    rw [List.isEmpty_iff.mp he] at h
    simp at h
  have hsubs : ∀ a ∈ sublistsDropOne (presentFaces dice), a ≠ [] := by
    intro a ha hnil
    rcases (mem_sublistsDropOne _ a).mp ha with ⟨_, hlen⟩
    rw [hnil] at hlen
    simp at hlen
    omega
  have hrun : validate_small_straight dice = Except.ok
      (((sublistsDropOne (presentFaces dice)).map straightCheckL).any id) := by
    unfold validate_small_straight
    rw [if_neg hne, mapExcept_validate_straight _ hsubs]
  refine ⟨⟨_, hrun⟩, ?_, rfl, rfl⟩
  rw [hrun]
  rw [show (Except.ok (((sublistsDropOne (presentFaces dice)).map
      straightCheckL).any id) = (Except.ok true : Except Err Bool)) ↔
      ((sublistsDropOne (presentFaces dice)).map straightCheckL).any id = true
    from ⟨fun hh => by injection hh, fun hh => by rw [hh]⟩]
  rw [List.any_eq_true]
  constructor
  · rintro ⟨b, hb, hid⟩
    rcases List.mem_map.mp hb with ⟨sub, hsub, rfl⟩
    rcases (mem_sublistsDropOne _ sub).mp hsub with ⟨hs, hlen⟩
    cases sub with
    | nil => exact absurd rfl (hsubs [] hsub)
    | cons x xs =>
      exact ⟨x :: xs, hs, hlen,
        (straightCheck_iff_spec x xs).mp (by simpa [straightCheckL] using hid)⟩
  · rintro ⟨sub, hs, hlen, hspec⟩
    have hmem : sub ∈ sublistsDropOne (presentFaces dice) :=
      (mem_sublistsDropOne _ _).mpr ⟨hs, hlen⟩
    cases sub with
    | nil => exact absurd rfl (hsubs [] hmem)
    | cons x xs =>
      refine ⟨straightCheckL (x :: xs), List.mem_map.mpr ⟨x :: xs, hmem, rfl⟩,
        ?_⟩
      simpa [straightCheckL] using (straightCheck_iff_spec x xs).mpr hspec

/-- Witness for C3 at a concrete input: faces `[1,1,2,3,4]` have at least two
present dice and the validator returns a boolean there. -/
theorem small_straight_spec_witness :
    2 ≤ (presentFaces [some 1, some 1, some 2, some 3, some 4]).length ∧
    (∃ b, validate_small_straight [some 1, some 1, some 2, some 3, some 4] =
      Except.ok b) :=
  ⟨by decide,
   (small_straight_spec [some 1, some 1, some 2, some 3, some 4]
     (by decide)).1⟩

end YahtzeeSpec

namespace YahtzeeSpec

/-- In a rule list with distinct names, `_update_rule_score` by the name of
the `k`-th rule scores exactly that rule, replacing it in place (or
propagating its error). -/
theorem scoreTheRule_at (l : List ScoringRule) (k : Nat) (r : ScoringRule)
    (dice : List (Option Nat)) (hnd : (l.map (fun x => x.name)).Nodup)
    (hk : l.get? k = some r) :
    scoreTheRule l r.name dice =
      match r.score dice with
      | .error e => .error e
      | .ok r2 => .ok (l.set k r2) := by
  induction l generalizing k with
  | nil => cases hk
  | cons x xs ih =>
    cases k with
    | zero =>
      rw [List.get?_cons_zero] at hk
      have hx : x = r := Option.some.inj hk
      subst hx
      unfold scoreTheRule
      rw [if_pos rfl]
      cases x.score dice with
      | error e => rfl
      | ok r2 => rfl
    | succ k2 =>
      rw [List.get?_cons_succ] at hk
      have hxname : x.name ≠ r.name := by
        have h2 : x.name ∉ xs.map (fun x => x.name) :=
          (List.nodup_cons.mp hnd).1
        have h3 : r.name ∈ xs.map (fun x => x.name) :=
          List.mem_map.mpr ⟨r, List.get?_mem hk, rfl⟩
        intro he
        rw [he] at h2
        exact h2 h3
      unfold scoreTheRule
      rw [if_neg hxname, ih k2 (List.nodup_cons.mp hnd).2 hk]
      cases r.score dice with
      | error e => rfl
      | ok r2 => rfl

/-- After replacing the `k`-th rule with an equally-named rule, looking up its
name finds the replacement. -/
theorem getRuleFromName_set (l : List ScoringRule) (k : Nat)
    (r r2 : ScoringRule) (hnd : (l.map (fun x => x.name)).Nodup)
    (hk : l.get? k = some r) (hname : r2.name = r.name) :
    getRuleFromName (l.set k r2) r.name = some r2 := by
  induction l generalizing k with
  | nil => cases hk
  | cons x xs ih =>
    cases k with
    | zero =>
      rw [List.get?_cons_zero] at hk
      have hx : x = r := Option.some.inj hk
      subst hx
      show getRuleFromName (r2 :: xs) x.name = some r2
      unfold getRuleFromName
      rw [List.find?_cons_of_pos _ (by simp [hname])]
    | succ k2 =>
      rw [List.get?_cons_succ] at hk
      have hxname : x.name ≠ r.name := by
        have h2 : x.name ∉ xs.map (fun x => x.name) :=
          (List.nodup_cons.mp hnd).1
        have h3 : r.name ∈ xs.map (fun x => x.name) :=
          List.mem_map.mpr ⟨r, List.get?_mem hk, rfl⟩
        intro he
        rw [he] at h2
        exact h2 h3
      show getRuleFromName (x :: xs.set k2 r2) r.name = some r2
      unfold getRuleFromName
      rw [List.find?_cons_of_neg _ (by simpa using hxname)]
      exact ih k2 (List.nodup_cons.mp hnd).2 hk

/-- Claim C5: `update_score(i, dice)` on a valid 1-based index scores the
`i`-th rule and then adds exactly that rule's resulting score to every bonus
whose `req_rules` contains the rule, leaving every other bonus (and the
Yahtzee bonus) untouched; when the target rule is already scored,
`RuleAlreadyScoredError` propagates and no rule or bonus is changed (the
returned error carries no updated sheet, so the caller's state is the
original one). -/
theorem update_score_spec (s : Scoresheet) (i : Nat)
    (dice : List (Option Nat)) (r : ScoringRule)
    (hnd : (s.rules.map (fun x => x.name)).Nodup)
    (h1 : 1 ≤ i) (hr : s.rules.get? (i - 1) = some r) :
    (∀ v : Nat, r.rule_score = none → scoreDice r.kind dice = Except.ok v →
        s.update_score i dice = Except.ok
          { rules := s.rules.set (i - 1) { r with rule_score := some v },
            bonuses := s.bonuses.map (fun b =>
              if r.name ∈ b.req_rules.getD [] then
                { b with counter := b.counter + v }
              else b),
            yahtzee_bonus := s.yahtzee_bonus }) ∧
    (∀ v : Nat, r.rule_score = some v →
        s.update_score i dice = Except.error (Err.ruleAlreadyScored r.name)) := by
  have hname : s.getNameFromIndex i = some r.name := by
    unfold Scoresheet.getNameFromIndex
    rw [if_pos h1, hr]
    rfl
  constructor
  · intro v hu hsc
    have hscore : r.score dice = Except.ok { r with rule_score := some v } := by
      simp [ScoringRule.score, ScoringRule._check_rule_not_scored, hu, hsc]
    have hfind : getRuleFromName
        (s.rules.set (i - 1) { r with rule_score := some v }) r.name =
        some { r with rule_score := some v } :=
      getRuleFromName_set s.rules (i - 1) r _ hnd hr rfl
    unfold Scoresheet.update_score
    rw [hname]
    show (match scoreTheRule s.rules r.name dice with
      | Except.error e => Except.error e
      | Except.ok rules2 =>
          Except.ok (updateDepBonuses { s with rules := rules2 } r.name)) = _
    rw [scoreTheRule_at s.rules (i - 1) r dice hnd hr, hscore]
    show Except.ok (updateDepBonuses
      { s with rules := s.rules.set (i - 1) { r with rule_score := some v } }
      r.name) = _
    unfold updateDepBonuses
    rw [hfind]
    rfl
  · intro v hv
    have hscore : r.score dice =
        Except.error (Err.ruleAlreadyScored r.name) := by
      simp [ScoringRule.score, ScoringRule._check_rule_not_scored, hv]
    unfold Scoresheet.update_score
    rw [hname]
    show (match scoreTheRule s.rules r.name dice with
      | Except.error e => Except.error e
      | Except.ok rules2 =>
          Except.ok (updateDepBonuses { s with rules := rules2 } r.name)) = _
    rw [scoreTheRule_at s.rules (i - 1) r dice hnd hr, hscore]

/-- Witness for C5 at a concrete scoresheet: scoring rule 1 ("ones") on faces
`[1,1,3]` stores 2, adds exactly 2 to the dependent bonus and nothing to the
unrelated one, and re-scoring the already-scored rule fails with
`RuleAlreadyScoredError`. -/
theorem update_score_spec_witness :
    ((wC5Sheet.rules.map (fun x => x.name)).Nodup ∧
      wC5Sheet.rules.get? 0 = some wC5Rule1) ∧
    wC5Sheet.update_score 1 [some 1, some 1, some 3] = Except.ok
      { rules := wC5Sheet.rules.set 0 { wC5Rule1 with rule_score := some 2 },
        bonuses := wC5Sheet.bonuses.map (fun b =>
          if wC5Rule1.name ∈ b.req_rules.getD [] then
            { b with counter := b.counter + 2 }
          else b),
        yahtzee_bonus := wC5Sheet.yahtzee_bonus } ∧
    wC5SheetScored.update_score 1 [some 4] =
      Except.error (Err.ruleAlreadyScored "ones") :=
  ⟨⟨by decide, rfl⟩,
   (update_score_spec wC5Sheet 1 [some 1, some 1, some 3] wC5Rule1
     (by decide) (by decide) rfl).1 2 rfl rfl,
   (update_score_spec wC5SheetScored 1 [some 4]
     { wC5Rule1 with rule_score := some 2 }
     (by decide) (by decide) rfl).2 2 rfl⟩

end YahtzeeSpec
